import Mathlib

/-!
Verification of the two protocol engines of `google/ios-device-control`
(third_party sources):

* `idevice-app-runner.c` — the gdb/lldb remote-serial-protocol session driver
  (hex codec, compacting receive buffer, packet reader/writer, RUNNING loop);
* `idevicewebinspectorproxy.c` — the webinspector relay (length-prefixed
  message pump, shared stop flags).

C `char` data is modeled as its unsigned byte value (`Nat`, range 0–255);
C strings are `List Nat` of byte values, with the terminating NUL implicit
(list end) unless stated otherwise.  C `int` arithmetic that can go negative
is modeled with `Int`, truncation of an `int` into a `char` cell that is read
back as a byte with two's-complement reduction mod 2^32 followed by mod 256.
-/

namespace IosDeviceControl

/-- Byte values of a string literal (ASCII codes). -/
def strCodes (s : String) : List Nat := s.toList.map Char.toNat

/-- `hex2int` from idevice-app-runner.c (lines 541–550): value of one hex
digit character, `-1` for a non-hex character. -/
def hex2int (c : Nat) : Int :=
  if 48 ≤ c ∧ c ≤ 57 then (c : Int) - 48
  else if 97 ≤ c ∧ c ≤ 102 then 10 + (c : Int) - 97
  else if 65 ≤ c ∧ c ≤ 70 then 10 + (c : Int) - 65
  else -1

/-- `int2hex` from idevice-app-runner.c (lines 536–539):
`"0123456789ABCDEF"[x]` (callers only pass `x < 16`). -/
def int2hex (x : Nat) : Nat :=
  (strCodes "0123456789ABCDEF").getD x 0

/-- The byte stored by `*t++ = i1 << 4 | i2` in `fromhex` (line 572), read
back as an unsigned byte: 32-bit two's-complement `int` arithmetic, the low
8 bits of the result. -/
def fromhexByte (c1 c2 : Nat) : Nat :=
  (Nat.lor ((hex2int c1 * 16).emod 4294967296).toNat
           ((hex2int c2).emod 4294967296).toNat) % 256

/-- `fromhex` from idevice-app-runner.c (lines 565–576): consume hex-digit
characters two at a time while fewer than `n` have been consumed, producing
one byte per pair.  (With `n` odd the C loop consumes `n+1` characters; a
source that ends before a full pair is modeled as end of input.) -/
def fromhexGo : Nat → List Nat → List Nat
  | n, c1 :: c2 :: rest =>
    if 0 < n then fromhexByte c1 c2 :: fromhexGo (n - 2) rest else []
  | _, _ => []

/-- `tohex` from idevice-app-runner.c (lines 552–563): two hex characters
per input byte, high nibble first (`*f >> 4` then `*f & 0xf` on the byte
value), uppercase, no separators; the written NUL terminator is implicit. -/
def tohexGo : List Nat → List Nat
  | [] => []
  | f :: rest => int2hex (f / 16) :: int2hex (f % 16) :: tohexGo rest

/-- The C string that results from writing `bs` then a NUL into a buffer:
reading stops at the first zero byte. -/
def cstr (bs : List Nat) : List Nat := bs.takeWhile (fun b => b ≠ 0)

/-- C `isspace` on the default locale's byte values. -/
def isSpaceC (c : Nat) : Bool := c = 32 ∨ (9 ≤ c ∧ c ≤ 13)

/-- Digit-accumulation loop of C `atoi`. -/
def atoiNum : List Nat → Int → Int
  | c :: rest, acc =>
    if 48 ≤ c ∧ c ≤ 57 then atoiNum rest (acc * 10 + ((c : Int) - 48)) else acc
  | [], acc => acc

/-- C `atoi` on a byte string: skip whitespace, one optional sign, decimal
digits; result 0 when no digits follow. -/
def atoiC (s : List Nat) : Int :=
  match s.dropWhile (fun c => isSpaceC c) with
  | [] => 0
  | c :: rest =>
    if c = 43 then atoiNum rest 0
    else if c = 45 then -(atoiNum rest 0)
    else atoiNum (c :: rest) 0

/-- Decimal rendering of a nonnegative number, as `sprintf "%d"` emits it. -/
def decChars (n : Nat) : List Nat := (Nat.toDigits 10 n).map Char.toNat

/-- `create_args_packet` from idevice-app-runner.c (lines 122–143):
`"$A"`, then for index 0 the app path and for index i ≥ 1 argument i−1,
each rendered as `[","]<2*len>,<i>,<hex>` (comma separator only between
tokens), then `"#00"`.  The `args` list models the NULL-terminated C
argument vector. -/
def create_args_packet (app_path : List Nat) (args : List (List Nat)) : List Nat :=
  let items := app_path :: args
  strCodes "$A" ++
    (items.enum.map (fun p =>
      (if p.1 = 0 then [] else [44]) ++ decChars (2 * p.2.length) ++ [44] ++
        decChars p.1 ++ [44] ++ tohexGo p.2)).flatten ++
    strCodes "#00"

/-- C `strncmp(a, b, n)`: compare at most `n` bytes; list end stands for the
NUL terminator.  Result 0 means equal (only the sign of the result is
meaningful, as in C). -/
def strncmpC (a b : List Nat) : Nat → Int
  | 0 => 0
  | n + 1 =>
    match a, b with
    | [], [] => 0
    | [], b1 :: _ => -(b1 : Int)
    | a1 :: _, [] => (a1 : Int)
    | a1 :: as, b1 :: bs =>
      if a1 ≠ b1 then (a1 : Int) - (b1 : Int)
      else if a1 = 0 then 0 else strncmpC as bs n

/-- The slice `[a, b)` of a byte arena. -/
def slice (l : List Nat) (a b : Nat) : List Nat := (l.take b).drop a

/-- Overwrite the arena bytes starting at `pos` with `chunk` (contents of a
`memmove`/`recv` into the buffer). -/
def writeAt (l : List Nat) (pos : Nat) (chunk : List Nat) : List Nat :=
  l.take pos ++ chunk ++ l.drop (pos + chunk.length)

/-- One poll of `idevice_connection_receive_timeout` as seen by `read_char`
(idevice-app-runner.c line 704): a transport error or a chunk of bytes
(possibly none arrived within the 500 ms wait). -/
inductive Poll where
  | perr : Poll
  | chunk : List Nat → Poll
  deriving DecidableEq

/-- `struct in_struct` (idevice-app-runner.c lines 579–589) together with
its transport: the fixed arena (`buf_begin..buf_end`) as a list of length
`cap`, the three cursors as indices from `buf_begin` (so `begin = 0` and
`end = cap`), the shared error flag, and the pending transport polls. -/
structure InSt where
  cap : Nat
  arena : List Nat
  headI : Nat
  nextI : Nat
  tailI : Nat
  error : Bool
  polls : List Poll
  deriving DecidableEq

/-- `in_new` (idevice-app-runner.c lines 591–609): a fresh session input
state over a `malloc`ed arena of `bufLen` bytes (modeled zero-filled; the
code never reads an unwritten slot), all cursors at `begin`. -/
def inNew (bufLen : Nat) (polls : List Poll) : InSt :=
  { cap := bufLen, arena := List.replicate bufLen 0,
    headI := 0, nextI := 0, tailI := 0, error := false, polls := polls }

/-- The cursor invariant of the receive buffer (spec §3):
`begin ≤ head ≤ next ≤ tail ≤ end`, with the arena exactly `cap` bytes
(`begin = 0`, `end = cap` in index form). -/
def Inv (st : InSt) : Prop :=
  st.headI ≤ st.nextI ∧ st.nextI ≤ st.tailI ∧ st.tailI ≤ st.cap ∧
    st.arena.length = st.cap

instance (st : InSt) : Decidable (Inv st) := by
  unfold Inv; infer_instance

/-- The "Make room" block of `read_char` (idevice-app-runner.c lines
678–696), entered when free space is below a quarter of capacity: if the
buffer is full (`avail == 0`) and nothing precedes `head` (`offset == 0`),
the error flag is set and the read fails (`false`); otherwise the
unconsumed span `head..tail` is shifted to `begin` (the `memmove` runs only
when both `offset` and `used` are nonzero) and the cursors are rebased. -/
def makeRoom (st : InSt) : InSt × Bool :=
  let avail := st.cap - st.tailI
  if avail = 0 ∧ st.headI = 0 then
    ({ st with error := true }, false)
  else
    let used := st.tailI - st.headI
    let arena' :=
      if st.headI ≠ 0 ∧ used ≠ 0 then
        writeAt st.arena 0 (slice st.arena st.headI st.tailI)
      else st.arena
    ({ st with arena := arena', headI := 0, nextI := used, tailI := used }, true)

/-- Result of the refill loop of `read_char`. -/
inductive FillRes where
  | filled : FillRes
  | fempty : FillRes
  | ffail : FillRes
  deriving DecidableEq

/-- The receive loop of `read_char` (idevice-app-runner.c lines 700–731):
poll the transport with a 500 ms bound; a transport error sets the error
flag and fails; zero bytes with `allow_empty` reports empty; zero bytes
otherwise retries until the ≈10 s deadline (modeled by `fuel` remaining
empty polls; an exhausted poll list is likewise the deadline) whereupon the
error flag is set; received bytes (at most `avail`) are appended at
`tail`. -/
def pollLoop (allowEmpty : Bool) : Nat → InSt → FillRes × InSt
  | fuel, st =>
    match st.polls with
    | [] => (.ffail, { st with error := true })
    | .perr :: rest => (.ffail, { st with error := true, polls := rest })
    | .chunk bs :: rest =>
      let eff := bs.take (st.cap - st.tailI)
      if eff.length = 0 then
        if allowEmpty then (.fempty, { st with polls := rest })
        else
          match fuel with
          | 0 => (.ffail, { st with error := true, polls := rest })
          | f + 1 => pollLoop allowEmpty f { st with polls := rest }
      else
        (.filled, { st with arena := writeAt st.arena st.tailI eff,
                            tailI := st.tailI + eff.length, polls := rest })

/-- Result of `read_char`: a byte, the empty outcome (only when the caller
allows it), or failure. -/
inductive ReadRes where
  | ok : Nat → ReadRes
  | empty : ReadRes
  | rfail : ReadRes
  deriving DecidableEq

/-- `read_char` (idevice-app-runner.c lines 670–738): refuse if the error
flag is set; refill (compacting first when free space is under a quarter of
capacity) when no unread byte is buffered; then return the byte at `next`,
advancing `next`.  `allowEmpty` models a non-NULL `to_allow_empty`. -/
def readChar (fuel : Nat) (st : InSt) (allowEmpty : Bool) : ReadRes × InSt :=
  if st.error then (.rfail, st)
  else if st.nextI = st.tailI then
    let room :=
      if st.cap - st.tailI < st.cap / 4 then makeRoom st else (st, true)
    if room.2 then
      match pollLoop allowEmpty fuel room.1 with
      | (.filled, st2) =>
        (.ok (st2.arena.getD st2.nextI 0), { st2 with nextI := st2.nextI + 1 })
      | (.fempty, st2) => (.empty, st2)
      | (_, st2) => (.rfail, st2)
    else (.rfail, room.1)
  else (.ok (st.arena.getD st.nextI 0), { st with nextI := st.nextI + 1 })

/-- The payload scan of `read_pkt` (idevice-app-runner.c lines 755–762):
read characters until a `#`.  `sfuel` bounds the number of iterations
(each consumes input or transport polls; exhaustion is modeled as the
transport deadline, setting the error flag).  Returns `true` when the `#`
was found. -/
def scanToHash (pollFuel : Nat) : Nat → InSt → InSt × Bool
  | 0, st => ({ st with error := true }, false)
  | sfuel + 1, st =>
    match readChar pollFuel st false with
    | (.ok c, st') =>
      if c = 35 then (st', true) else scanToHash pollFuel sfuel st'
    | (_, st') => (st', false)

/-- Result of `read_pkt`: failure, or a packet (the empty packet `pok []`
is the `allow_empty` outcome). -/
inductive PktRes where
  | pfail : PktRes
  | pok : List Nat → PktRes
  deriving DecidableEq

/-- The common tail of `read_pkt` (idevice-app-runner.c lines 775–784):
the packet view is `[head, next)`; on failure the error flag is set; `head`
is advanced to `next` (consuming the packet) in both cases. -/
def readPktFinish (st : InSt) (success : Bool) : PktRes × InSt :=
  let pkt := slice st.arena st.headI st.nextI
  let st' := { st with headI := st.nextI, error := st.error || !success }
  (if success then .pok pkt else .pfail, st')

/-- `read_pkt` (idevice-app-runner.c lines 740–785): refuse if the error
flag is set; read the first byte (empty allowed when `allowEmpty`).  An
empty read or a leading `+` succeeds; a leading `$` scans to `#` and then
requires two hex-digit characters; any other leading byte, or a bad
checksum character, is an invalid packet (error flag set, packet still
consumed).  A `read_char` failure mid-packet returns at once without
consuming (source lines 746–748, 756–758, 763–765, 767–769). -/
def readPkt (pollFuel sfuel : Nat) (st : InSt) (allowEmpty : Bool) :
    PktRes × InSt :=
  if st.error then (.pfail, st)
  else
    match readChar pollFuel st allowEmpty with
    | (.rfail, st') => (.pfail, st')
    | (.empty, st') => readPktFinish st' true
    | (.ok c, st') =>
      if c = 43 then readPktFinish st' true
      else if c = 36 then
        match scanToHash pollFuel sfuel st' with
        | (st2, false) => (.pfail, st2)
        | (st2, true) =>
          match readChar pollFuel st2 false with
          | (.ok c1, st3) =>
            if 0 ≤ hex2int c1 then
              match readChar pollFuel st3 false with
              | (.ok c2, st4) =>
                if 0 ≤ hex2int c2 then readPktFinish st4 true
                else readPktFinish st4 false
              | (_, st4) => (.pfail, st4)
            else readPktFinish st3 false
          | (_, st3) => (.pfail, st3)
      else readPktFinish st' false

/-- `read_pkt_assert` (idevice-app-runner.c lines 787–799): read one packet
(no empty allowed); succeed (0) exactly when `strncmp(s, expected, n)` with
`n` the packet length reports equality; otherwise set the error flag and
return −1. -/
def readPktAssert (pollFuel sfuel : Nat) (st : InSt) (expected : List Nat) :
    Int × InSt :=
  match readPkt pollFuel sfuel st false with
  | (.pok s, st') =>
    if strncmpC s expected s.length = 0 then (0, st')
    else (-1, { st' with error := true })
  | (.pfail, st') => (-1, st')

/-- A session state with a buffered unread `-` byte. -/
def minusState : InSt :=
  { cap := 4, arena := [45, 0, 0, 0], headI := 0, nextI := 0, tailI := 1,
    error := false, polls := [] }

/-- A session state with a buffered unread `+` byte. -/
def plusState : InSt :=
  { cap := 4, arena := [43, 0, 0, 0], headI := 0, nextI := 0, tailI := 1,
    error := false, polls := [] }

/-- A fresh session state whose error flag has been set. -/
def errState : InSt :=
  { cap := 4, arena := [0, 0, 0, 0], headI := 0, nextI := 0, tailI := 0,
    error := true, polls := [] }

/-- The session state after reading the one-byte packet `"+"` from a fresh
16-byte session (`inNew 16 [Poll.chunk (strCodes "+")]`). -/
def plusDoneState : InSt :=
  { cap := 16, arena := 43 :: List.replicate 15 0, headI := 1, nextI := 1,
    tailI := 1, error := false, polls := [] }

/-- `struct out_struct` with its transport: the shared error flag and the
log of send calls actually issued. -/
structure OutSt where
  error : Bool
  sent : List (List Nat)
  deriving DecidableEq

/-- `write_pkt` (idevice-app-runner.c lines 647–668): no-op while the error
flag is set; otherwise send the bytes (`sendOk` models
`err_code == IDEVICE_E_SUCCESS && bytes == n`; `app_quit` only selects the
log message) and set the error flag on a failed or short send. -/
def writePkt (st : OutSt) (s : List Nat) (sendOk : Bool) : OutSt :=
  if st.error then st
  else if sendOk then { st with sent := st.sent ++ [s] }
  else { st with sent := st.sent ++ [s], error := true }

/-- How one non-empty packet `s` is handled by the RUNNING loop of `main`
(idevice-app-runner.c lines 245–271). -/
inductive RunDisp where
  | ignore : RunDisp
  | output : List Nat → RunDisp
  | crash : RunDisp
  | exited : Int → RunDisp
  | violation : RunDisp
  deriving DecidableEq

/-- The RUNNING-loop packet dispatch of `main` (idevice-app-runner.c lines
245–271) for a non-empty packet `s`:
* `"$#00"` (length 4): ignored, loop continues;
* `"$O…#00"` (length > 5): stdout text — `fromhex(s, s+2, n-5)` decodes in
  place and the resulting C string is printed (reply `"$OK#00"`);
* `"$T…"` (length > 2): crash, loop breaks;
* `"$W…#00"` / `"$X…#00"` (length > 5): exit — `fromhex(s, s+2, n-3)`
  decodes in place (note: `n-3`, so the `#` and first checksum digit are
  also fed to `fromhex`) and `ret = atoi(s)` of the resulting C string;
* anything else: protocol violation, loop breaks. -/
def runningDispatch (s : List Nat) : RunDisp :=
  let n := s.length
  if n = 4 ∧ strncmpC s (strCodes "$#00") 4 = 0 then
    .ignore
  else if n > 5 ∧ strncmpC s (strCodes "$O") 2 = 0 ∧
      strncmpC (s.drop (n - 3)) (strCodes "#00") 3 = 0 then
    .output (cstr (fromhexGo (n - 5) (s.drop 2)))
  else if n > 2 ∧ strncmpC s (strCodes "$T") 2 = 0 then
    .crash
  else if n > 5 ∧
      (strncmpC s (strCodes "$W") 2 = 0 ∨ strncmpC s (strCodes "$X") 2 = 0) ∧
      strncmpC (s.drop (n - 3)) (strCodes "#00") 3 = 0 then
    .exited (atoiC (cstr (fromhexGo (n - 3) (s.drop 2))))
  else
    .violation

/-- An exit packet `$W<hex payload>#00` whose payload is the hex encoding of
the byte string `ds`. -/
def exitPacketW (ds : List Nat) : List Nat :=
  strCodes "$W" ++ tohexGo ds ++ strCodes "#00"

/-- The decimal number denoted by a string of ASCII digits (what `atoi`
computes on it). -/
def digitsVal (ds : List Nat) : Int :=
  ds.foldl (fun a d => a * 10 + ((d : Int) - 48)) 0

/-- One step of the idle (`spin_counter`) logic of the RUNNING loop
(idevice-app-runner.c lines 224–244): on an empty read (`n == 0`) the
counter is incremented and, when it exceeds 5, `sleep(1)` runs and the
counter resets; on a non-empty read the counter resets (line 244).
Returns (new counter, whether this step slept). -/
def spinStep (spin : Nat) (emptyRead : Bool) : Nat × Bool :=
  if emptyRead then
    if spin + 1 > 5 then (0, true) else (spin + 1, false)
  else (0, false)

/-- Fold `spinStep` over a sequence of read outcomes (`true` = empty read),
returning the final counter and the total number of one-second sleeps. -/
def spinRun : Nat → List Bool → Nat × Nat
  | spin, [] => (spin, 0)
  | spin, e :: es =>
    let step := spinStep spin e
    let rest := spinRun step.1 es
    (rest.1, (if step.2 then 1 else 0) + rest.2)

/-- `be32toh` of four received prefix bytes (network byte order). -/
def be32toh (b0 b1 b2 b3 : Nat) : Nat :=
  ((b0 * 256 + b1) * 256 + b2) * 256 + b3

/-- Result of one iteration of the `thread_client_to_device` loop
(idevicewebinspectorproxy.c lines 197–256), up to the message-body read. -/
inductive CtodIterRes where
  | recvFail : CtodIterRes
  | badLength : Nat → CtodIterRes
  | gotMessage : Nat → List Nat → CtodIterRes
  deriving DecidableEq

/-- One iteration of the local→remote pump head (idevicewebinspectorproxy.c
lines 200–217) over the client byte stream `ins`: read a 4-byte big-endian
length prefix (a stream that ends first is a receive failure, line 202);
a length of 0 or ≥ 131072 (`sizeof(buffer)`, line 207) breaks the loop
before any payload byte is read; otherwise exactly `len` payload bytes are
read.  Returns the outcome and the unconsumed remainder of the stream. -/
def ctodIter (ins : List Nat) : CtodIterRes × List Nat :=
  if ins.length < 4 then (.recvFail, ins)
  else
    let rest := ins.drop 4
    let len := be32toh (ins.getD 0 0) (ins.getD 1 0) (ins.getD 2 0) (ins.getD 3 0)
    if len = 0 ∨ len ≥ 131072 then (.badLength len, rest)
    else (.gotMessage len (rest.take len), rest.drop len)

/-- The two per-direction stop flags of the program-wide `socket_info_t`
record of idevicewebinspectorproxy.c (fields `stop_ctod`, `stop_dtoc`,
lines 50–51), modeled as the C `int` values 0/1. -/
structure RelaySt where
  stop_ctod : Nat
  stop_dtoc : Nat
  deriving DecidableEq

/-- The flag values `main` installs once at startup (lines 318–319), before
the accept loop; `main` passes the address of this single record to every
connection handler it spawns (line 426). -/
def relayInit : RelaySt := { stop_ctod := 0, stop_dtoc := 0 }

/-- Every program event that touches the shared `socket_info_t` stop flags
after startup: accepting a connection (line 418, writes `client_fd` only),
`thread_device_to_client` exiting (line 175: `stop_ctod = 1`), and
`thread_client_to_device` exiting (line 264: `stop_dtoc = 1`).  No other
statement in the program assigns either flag. -/
inductive RelayEvent where
  | acceptConn : RelayEvent
  | dtocExit : RelayEvent
  | ctodExit : RelayEvent
  deriving DecidableEq

/-- Effect of one event on the shared stop flags. -/
def relayStep (st : RelaySt) : RelayEvent → RelaySt
  | .acceptConn => st
  | .dtocExit => { st with stop_ctod := 1 }
  | .ctodExit => { st with stop_dtoc := 1 }

/-- The shared stop-flag state after a sequence of post-startup events. -/
def relayRun (evs : List RelayEvent) : RelaySt :=
  evs.foldl relayStep relayInit

/-! ## Helper lemmas -/

/-- One byte round-trips through the two nibble codecs. -/
lemma fromhexByte_int2hex :
    ∀ a < 16, ∀ b < 16, fromhexByte (int2hex a) (int2hex b) = 16 * a + b := by
  decide

/-- `tohex` emits two characters per input byte. -/
lemma length_tohexGo (bs : List Nat) : (tohexGo bs).length = 2 * bs.length := by
  induction bs with
  | nil => rfl
  | cons b bs ih => simp [tohexGo, ih]; omega

/-- Hex round-trip at the list level. -/
lemma fromhexGo_tohexGo :
    ∀ bs : List Nat, (∀ b ∈ bs, b < 256) →
      fromhexGo (2 * bs.length) (tohexGo bs) = bs := by
  intro bs
  induction bs with
  | nil => intro _; rfl
  | cons b bs ih =>
    intro h
    have hb : b < 256 := h b (by simp)
    simp only [tohexGo, List.length_cons, fromhexGo]
    rw [if_pos (by omega)]
    have h2 : 2 * (bs.length + 1) - 2 = 2 * bs.length := by omega
    rw [h2, ih (fun x hx => h x (by simp [hx]))]
    rw [fromhexByte_int2hex _ (by omega) _ (by omega)]
    congr 1
    omega

/-- Hex round-trip when `fromhex` is over-run by two characters `"#0"`, as
the exit-packet branch of the RUNNING loop does: the stray pair decodes to
the byte 0xF0 (240). -/
lemma fromhexGo_tohexGo_exit :
    ∀ ds : List Nat, (∀ d ∈ ds, d < 256) →
      fromhexGo (2 * ds.length + 2) (tohexGo ds ++ [35, 48, 48]) =
        ds ++ [240] := by
  intro ds
  induction ds with
  | nil => intro _; rfl
  | cons d ds ih =>
    intro h
    have hd : d < 256 := h d (by simp)
    simp only [tohexGo, List.length_cons, List.cons_append, List.append_eq,
      fromhexGo]
    rw [if_pos (by omega)]
    have h2 : 2 * (ds.length + 1) + 2 - 2 = 2 * ds.length + 2 := by omega
    rw [h2]
    have ih' := ih (fun x hx => h x (by simp [hx]))
    simp only [List.append_eq] at ih'
    rw [ih', fromhexByte_int2hex _ (by omega) _ (by omega)]
    have h3 : 16 * (d / 16) + d % 16 = d := by omega
    simp [h3]

/-- A list without zero bytes is its own C string. -/
lemma cstr_eq_self :
    ∀ l : List Nat, (∀ b ∈ l, b ≠ 0) → cstr l = l := by
  intro l
  induction l with
  | nil => intro _; rfl
  | cons a l ih =>
    intro h
    have ha : a ≠ 0 := h a (by simp)
    simp only [cstr] at ih ⊢
    rw [List.takeWhile_cons_of_pos (by simpa using ha),
      ih (fun x hx => h x (by simp [hx]))]

/-- `atoi`'s digit loop over ASCII digits followed by the non-digit 240. -/
lemma atoiNum_digits :
    ∀ ds : List Nat, (∀ d ∈ ds, 48 ≤ d ∧ d ≤ 57) → ∀ acc,
      atoiNum (ds ++ [240]) acc =
        ds.foldl (fun a d => a * 10 + ((d : Int) - 48)) acc := by
  intro ds
  induction ds with
  | nil => intro _ acc; simp [atoiNum]
  | cons d ds ih =>
    intro h acc
    have hd := h d (by simp)
    simp only [List.cons_append, atoiNum, List.foldl_cons]
    rw [if_pos (by omega)]
    exact ih (fun x hx => h x (by simp [hx])) _

/-- Monotonicity of `stop_dtoc` under any event suffix. -/
lemma relay_foldl_dtoc (st : RelaySt) (h : st.stop_dtoc = 1) :
    ∀ l : List RelayEvent, (l.foldl relayStep st).stop_dtoc = 1 := by
  intro l
  induction l generalizing st h with
  | nil => exact h
  | cons e l ih =>
    simp only [List.foldl_cons]
    apply ih
    cases e <;> simp [relayStep, h]

/-- Monotonicity of `stop_ctod` under any event suffix. -/
lemma relay_foldl_ctod (st : RelaySt) (h : st.stop_ctod = 1) :
    ∀ l : List RelayEvent, (l.foldl relayStep st).stop_ctod = 1 := by
  intro l
  induction l generalizing st h with
  | nil => exact h
  | cons e l ih =>
    simp only [List.foldl_cons]
    apply ih
    cases e <;> simp [relayStep, h]

/-- Comparing a packet starting `"$W"` against the two-byte literals the
RUNNING loop uses. -/
lemma strncmpC_W (t : List Nat) :
    strncmpC (36 :: 87 :: t) (strCodes "$W") 2 = 0 ∧
    strncmpC (36 :: 87 :: t) (strCodes "$O") 2 = 8 ∧
    strncmpC (36 :: 87 :: t) (strCodes "$T") 2 = 3 := by
  refine ⟨?_, rfl, rfl⟩
  cases t <;> rfl

/-- The shape of an exit packet as one cons-chain. -/
lemma exitPacketW_shape (ds : List Nat) :
    exitPacketW ds = 36 :: 87 :: (tohexGo ds ++ [35, 48, 48]) := by
  show strCodes "$W" ++ tohexGo ds ++ strCodes "#00" = _
  rfl

/-- Length of an exit packet. -/
lemma exitPacketW_length (ds : List Nat) :
    (exitPacketW ds).length = 2 * ds.length + 5 := by
  rw [exitPacketW_shape]
  simp only [List.length_cons, List.length_append, List.length_nil,
    length_tohexGo]
  try omega

/-- `strncmpC s e |s|` reports equality exactly when `s` is a prefix of
`e` (bytes beyond `s`'s length in `e` — including its NUL terminator — are
never examined), provided neither byte string contains a NUL. -/
lemma strncmpC_eq_zero_iff :
    ∀ s e : List Nat, (∀ b ∈ s, b ≠ 0) → (∀ b ∈ e, b ≠ 0) →
      (strncmpC s e s.length = 0 ↔
        s.length ≤ e.length ∧ s = e.take s.length) := by
  intro s
  induction s with
  | nil =>
    intro e _ _
    cases e <;> simp [strncmpC]
  | cons a as ih =>
    intro e hs he
    have ha : a ≠ 0 := hs a (by simp)
    cases e with
    | nil =>
      simp only [strncmpC, List.length_cons, List.length_nil]
      constructor
      · intro hc
        exact absurd (by exact_mod_cast hc) ha
      · intro hc
        omega
    | cons b bs =>
      by_cases hab : a = b
      · subst hab
        have hstep : strncmpC (a :: as) (a :: bs) (as.length + 1) =
            strncmpC as bs as.length := by
          simp [strncmpC, ha]
        rw [List.length_cons, hstep,
          ih bs (fun x hx => hs x (by simp [hx]))
            (fun x hx => he x (by simp [hx]))]
        constructor
        · rintro ⟨h1, h2⟩
          refine ⟨by simpa using h1, ?_⟩
          rw [List.take_succ_cons, ← h2]
        · rintro ⟨h1, h2⟩
          rw [List.take_succ_cons] at h2
          injection h2 with h2a h2b
          exact ⟨by simpa using h1, h2b⟩
      · have hstep : strncmpC (a :: as) (b :: bs) (as.length + 1) =
            (a : Int) - (b : Int) := by
          simp [strncmpC, hab]
        rw [List.length_cons, hstep]
        constructor
        · intro hc
          exact absurd (by exact_mod_cast sub_eq_zero.mp hc) hab
        · rintro ⟨-, hc⟩
          rw [List.take_succ_cons] at hc
          exact absurd (List.cons.injEq .. ▸ hc).1 hab

/-- `readPktFinish` on success: packet view `[head, next)`, `head`
advanced, error flag untouched. -/
lemma readPktFinish_true (st : InSt) :
    readPktFinish st true =
      (.pok (slice st.arena st.headI st.nextI),
        { st with headI := st.nextI }) := by
  simp [readPktFinish]

/-- `readPktFinish` on failure: error flag set, packet still consumed. -/
lemma readPktFinish_false (st : InSt) :
    readPktFinish st false =
      (.pfail, { st with headI := st.nextI, error := true }) := by
  simp [readPktFinish]

/-- The one-byte slice at a valid index. -/
lemma slice_one (l : List Nat) (a : Nat) (h : a < l.length) :
    slice l a (a + 1) = [l.getD a 0] := by
  unfold slice
  rw [List.take_succ]
  have hlen : (l.take a).length = a := by
    simp [List.length_take]
    omega
  rw [List.drop_left' hlen]
  simp [List.getD, List.getElem?_eq_getElem h]

/-- `writeAt` inside the arena preserves its length. -/
lemma writeAt_length (l : List Nat) (pos : Nat) (c : List Nat)
    (h : pos + c.length ≤ l.length) :
    (writeAt l pos c).length = l.length := by
  unfold writeAt
  simp [List.length_take, List.length_drop]
  omega

/-- Length of an in-bounds slice. -/
lemma slice_length (l : List Nat) (a b : Nat) (h : b ≤ l.length) :
    (slice l a b).length = b - a := by
  unfold slice
  simp [List.length_drop, List.length_take]
  omega

/-- An empty slice. -/
lemma slice_self (l : List Nat) (a b : Nat) (h : b ≤ a) :
    slice l a b = [] := by
  unfold slice
  apply List.drop_eq_nil_of_le
  simp [List.length_take]
  omega

/-- Reading back a block just written at the start of the arena. -/
lemma slice_writeAt_zero (l c : List Nat) (_h : c.length ≤ l.length) :
    slice (writeAt l 0 c) 0 c.length = c := by
  unfold writeAt slice
  simp only [List.take_nil, List.take_zero, List.nil_append, List.drop_zero,
    Nat.zero_add]
  rw [List.take_left]

/-- The "buffer full" outcome of `makeRoom`: error flag set, read fails. -/
lemma makeRoom_full (st : InSt) (h0 : st.cap - st.tailI = 0)
    (hh : st.headI = 0) :
    makeRoom st = ({ st with error := true }, false) := by
  unfold makeRoom
  rw [if_pos ⟨h0, hh⟩]

/-- The compaction outcome of `makeRoom`: cursors rebased to `begin`. -/
lemma makeRoom_ok (st : InSt) (h : ¬(st.cap - st.tailI = 0 ∧ st.headI = 0)) :
    (makeRoom st).2 = true ∧
    (makeRoom st).1.headI = 0 ∧
    (makeRoom st).1.nextI = st.tailI - st.headI ∧
    (makeRoom st).1.tailI = st.tailI - st.headI ∧
    (makeRoom st).1.cap = st.cap ∧
    (makeRoom st).1.error = st.error ∧
    (makeRoom st).1.polls = st.polls ∧
    (makeRoom st).1.arena =
      (if st.headI ≠ 0 ∧ st.tailI - st.headI ≠ 0 then
        writeAt st.arena 0 (slice st.arena st.headI st.tailI)
      else st.arena) := by
  unfold makeRoom
  rw [if_neg h]
  exact ⟨rfl, rfl, rfl, rfl, rfl, rfl, rfl, rfl⟩

/-- Compaction preserves the unconsumed bytes: the span `head..tail` is
found at `begin` afterwards. -/
lemma makeRoom_content (st : InSt) (hinv : Inv st)
    (h : ¬(st.cap - st.tailI = 0 ∧ st.headI = 0)) :
    slice (makeRoom st).1.arena 0 (st.tailI - st.headI) =
      slice st.arena st.headI st.tailI := by
  obtain ⟨h1, h2, h3, h4⟩ := hinv
  unfold makeRoom
  rw [if_neg h]
  by_cases hmv : st.headI ≠ 0 ∧ st.tailI - st.headI ≠ 0
  · simp only [if_pos hmv]
    have hlen : (slice st.arena st.headI st.tailI).length =
        st.tailI - st.headI := slice_length _ _ _ (by omega)
    rw [← hlen]
    exact slice_writeAt_zero _ _ (by omega)
  · simp only [if_neg hmv]
    rcases Decidable.not_and_iff_or_not.mp hmv with hh | hu
    · have hh0 : st.headI = 0 := by omega
      rw [hh0]
      simp
    · have hu0 : st.tailI - st.headI = 0 := by omega
      rw [hu0, slice_self _ _ _ (by omega), slice_self _ _ _ (by omega)]

/-- `makeRoom` preserves the cursor invariant, the capacity and the arena
size. -/
lemma makeRoom_inv (st : InSt) (hinv : Inv st) :
    Inv (makeRoom st).1 ∧ (makeRoom st).1.cap = st.cap ∧
      (makeRoom st).1.arena.length = st.arena.length := by
  obtain ⟨h1, h2, h3, h4⟩ := hinv
  by_cases hful : st.cap - st.tailI = 0 ∧ st.headI = 0
  · rw [makeRoom_full st hful.1 hful.2]
    exact ⟨⟨h1, h2, h3, h4⟩, rfl, rfl⟩
  · obtain ⟨hb, hh, hn, ht, hc, he, hp, ha⟩ := makeRoom_ok st hful
    have hal : (makeRoom st).1.arena.length = st.arena.length := by
      rw [ha]
      by_cases hmv : st.headI ≠ 0 ∧ st.tailI - st.headI ≠ 0
      · rw [if_pos hmv, writeAt_length]
        rw [slice_length _ _ _ (by omega)]
        omega
      · rw [if_neg hmv]
    refine ⟨⟨?_, ?_, ?_, ?_⟩, hc, hal⟩
    · rw [hh]; omega
    · rw [hn, ht]
    · rw [ht, hc]; omega
    · rw [hal, hc, h4]

/-- Unfolding `pollLoop` when the transport model is exhausted. -/
lemma pollLoop_nil (ae : Bool) (fuel : Nat) (st : InSt)
    (hp : st.polls = []) :
    pollLoop ae fuel st = (.ffail, { st with error := true }) := by
  obtain ⟨c, a, h, n, t, e, p⟩ := st
  simp only at hp
  subst hp
  cases fuel <;> rfl

/-- Unfolding `pollLoop` on a transport error. -/
lemma pollLoop_perr (ae : Bool) (fuel : Nat) (st : InSt) (rest : List Poll)
    (hp : st.polls = .perr :: rest) :
    pollLoop ae fuel st = (.ffail, { st with error := true, polls := rest }) := by
  obtain ⟨c, a, h, n, t, e, p⟩ := st
  simp only at hp
  subst hp
  cases fuel <;> rfl

/-- Unfolding `pollLoop` on a received chunk. -/
lemma pollLoop_chunk (ae : Bool) (fuel : Nat) (st : InSt) (bs : List Nat)
    (rest : List Poll) (hp : st.polls = .chunk bs :: rest) :
    pollLoop ae fuel st =
      (if (bs.take (st.cap - st.tailI)).length = 0 then
        if ae then (.fempty, { st with polls := rest })
        else
          match fuel with
          | 0 => (.ffail, { st with error := true, polls := rest })
          | f + 1 => pollLoop ae f { st with polls := rest }
      else
        (.filled,
          { st with
              arena := writeAt st.arena st.tailI (bs.take (st.cap - st.tailI)),
              tailI := st.tailI + (bs.take (st.cap - st.tailI)).length,
              polls := rest })) := by
  obtain ⟨c, a, h, n, t, e, p⟩ := st
  simp only at hp
  subst hp
  cases fuel <;> rfl

/-- The refill loop preserves the cursor invariant, the capacity, the arena
size, `head` and `next`; it grows `tail` exactly when it reports
`filled` (in which case an unread byte exists at `next`, given that the
loop was entered with `next = tail`). -/
lemma pollLoop_spec (ae : Bool) :
    ∀ (fuel : Nat) (st : InSt), Inv st → st.nextI = st.tailI →
      Inv (pollLoop ae fuel st).2 ∧
      (pollLoop ae fuel st).2.cap = st.cap ∧
      (pollLoop ae fuel st).2.arena.length = st.arena.length ∧
      (pollLoop ae fuel st).2.headI = st.headI ∧
      (pollLoop ae fuel st).2.nextI = st.nextI ∧
      ((pollLoop ae fuel st).1 = .filled →
        (pollLoop ae fuel st).2.nextI < (pollLoop ae fuel st).2.tailI) := by
  intro fuel
  induction fuel with
  | zero =>
    intro st hinv hnt
    obtain ⟨h1, h2, h3, h4⟩ := hinv
    cases hp : st.polls with
    | nil =>
      rw [pollLoop_nil ae 0 st hp]
      refine ⟨⟨h1, h2, h3, h4⟩, ?_, ?_, ?_, ?_, ?_⟩ <;> simp
    | cons p rest =>
      cases p with
      | perr =>
        rw [pollLoop_perr ae 0 st rest hp]
        refine ⟨⟨h1, h2, h3, h4⟩, ?_, ?_, ?_, ?_, ?_⟩ <;> simp
      | chunk bs =>
        rw [pollLoop_chunk ae 0 st bs rest hp]
        by_cases heff : (bs.take (st.cap - st.tailI)).length = 0
        · rw [if_pos heff]
          cases ae with
          | true =>
            refine ⟨⟨h1, h2, h3, h4⟩, ?_, ?_, ?_, ?_, ?_⟩ <;> simp
          | false =>
            refine ⟨⟨h1, h2, h3, h4⟩, ?_, ?_, ?_, ?_, ?_⟩ <;> simp
        · rw [if_neg heff]
          have hb : (bs.take (st.cap - st.tailI)).length ≤ st.cap - st.tailI := by
            simp [List.length_take]
          have hwl : (writeAt st.arena st.tailI
              (bs.take (st.cap - st.tailI))).length = st.arena.length :=
            writeAt_length _ _ _ (by omega)
          refine ⟨⟨h1, ?_, ?_, ?_⟩, rfl, hwl, rfl, rfl, fun _ => ?_⟩
          · show st.nextI ≤ st.tailI + (bs.take (st.cap - st.tailI)).length
            omega
          · show st.tailI + (bs.take (st.cap - st.tailI)).length ≤ st.cap
            omega
          · show (writeAt st.arena st.tailI
                (bs.take (st.cap - st.tailI))).length = st.cap
            rw [hwl]
            exact h4
          · show st.nextI < st.tailI + (bs.take (st.cap - st.tailI)).length
            omega
  | succ f ih =>
    intro st hinv hnt
    obtain ⟨h1, h2, h3, h4⟩ := hinv
    cases hp : st.polls with
    | nil =>
      rw [pollLoop_nil ae (f + 1) st hp]
      refine ⟨⟨h1, h2, h3, h4⟩, ?_, ?_, ?_, ?_, ?_⟩ <;> simp
    | cons p rest =>
      cases p with
      | perr =>
        rw [pollLoop_perr ae (f + 1) st rest hp]
        refine ⟨⟨h1, h2, h3, h4⟩, ?_, ?_, ?_, ?_, ?_⟩ <;> simp
      | chunk bs =>
        rw [pollLoop_chunk ae (f + 1) st bs rest hp]
        by_cases heff : (bs.take (st.cap - st.tailI)).length = 0
        · rw [if_pos heff]
          cases ae with
          | true =>
            refine ⟨⟨h1, h2, h3, h4⟩, ?_, ?_, ?_, ?_, ?_⟩ <;> simp
          | false =>
            exact ih { st with polls := rest } ⟨h1, h2, h3, h4⟩ hnt
        · rw [if_neg heff]
          have hb : (bs.take (st.cap - st.tailI)).length ≤ st.cap - st.tailI := by
            simp [List.length_take]
          have hwl : (writeAt st.arena st.tailI
              (bs.take (st.cap - st.tailI))).length = st.arena.length :=
            writeAt_length _ _ _ (by omega)
          refine ⟨⟨h1, ?_, ?_, ?_⟩, rfl, hwl, rfl, rfl, fun _ => ?_⟩
          · show st.nextI ≤ st.tailI + (bs.take (st.cap - st.tailI)).length
            omega
          · show st.tailI + (bs.take (st.cap - st.tailI)).length ≤ st.cap
            omega
          · show (writeAt st.arena st.tailI
                (bs.take (st.cap - st.tailI))).length = st.cap
            rw [hwl]
            exact h4
          · show st.nextI < st.tailI + (bs.take (st.cap - st.tailI)).length
            omega

/-- The state after the refill loop, with one byte consumed at `next`,
keeps the cursor invariant (`read_char` consume step). -/
lemma pollConsume_spec (ae : Bool) (fuel : Nat) (st : InSt) (hinv : Inv st)
    (hnt : st.nextI = st.tailI) :
    ∀ r st2, pollLoop ae fuel st = (r, st2) →
      Inv st2 ∧ st2.cap = st.cap ∧ st2.arena.length = st.arena.length ∧
      (r = .filled →
        Inv { st2 with nextI := st2.nextI + 1 } ∧
        st2.cap = st.cap ∧ st2.arena.length = st.arena.length) := by
  intro r st2 hres
  obtain ⟨hplinv, hplc, hpll, hplh, hpln, hplf⟩ :=
    pollLoop_spec ae fuel st hinv hnt
  rw [hres] at hplinv hplc hpll hplh hpln hplf
  simp only at hplinv hplc hpll hplh hpln hplf
  refine ⟨hplinv, hplc, hpll, fun hr => ?_⟩
  obtain ⟨g1, g2, g3, g4⟩ := hplinv
  have hlt := hplf hr
  refine ⟨⟨?_, ?_, ?_, ?_⟩, hplc, hpll⟩
  · show st2.headI ≤ st2.nextI + 1
    omega
  · show st2.nextI + 1 ≤ st2.tailI
    omega
  · show st2.tailI ≤ st2.cap
    omega
  · show st2.arena.length = st2.cap
    exact g4

/-- `read_char` preserves the cursor invariant, the capacity and the arena
size. -/
lemma readChar_spec (fuel : Nat) (st : InSt) (ae : Bool) (hinv : Inv st) :
    Inv (readChar fuel st ae).2 ∧
    (readChar fuel st ae).2.cap = st.cap ∧
    (readChar fuel st ae).2.arena.length = st.arena.length := by
  obtain ⟨h1, h2, h3, h4⟩ := hinv
  simp only [readChar]
  by_cases herr : st.error = true
  · rw [if_pos herr]
    exact ⟨⟨h1, h2, h3, h4⟩, rfl, rfl⟩
  · rw [if_neg herr]
    by_cases hnt : st.nextI = st.tailI
    · rw [if_pos hnt]
      by_cases hcomp : st.cap - st.tailI < st.cap / 4
      · rw [if_pos hcomp]
        by_cases hful : st.cap - st.tailI = 0 ∧ st.headI = 0
        · rw [makeRoom_full st hful.1 hful.2]
          simp only [Bool.false_eq_true, if_false]
          refine ⟨⟨h1, h2, h3, h4⟩, ?_, ?_⟩ <;> simp
        · obtain ⟨hmr, hmc, hml⟩ := makeRoom_inv st ⟨h1, h2, h3, h4⟩
          obtain ⟨hb, hh, hn, ht, hc, he, hp, _⟩ := makeRoom_ok st hful
          rw [hb]
          simp only [if_true]
          rcases hres : pollLoop ae fuel (makeRoom st).1 with ⟨r, st2⟩
          obtain ⟨hi2, hc2, hl2, hfil⟩ := pollConsume_spec ae fuel
            (makeRoom st).1 hmr (by rw [hn, ht]) r st2 hres
          cases r with
          | filled =>
            obtain ⟨hfi, hfc, hfl⟩ := hfil rfl
            exact ⟨hfi, by rw [hfc, hmc], by rw [hfl, hml]⟩
          | fempty =>
            exact ⟨hi2, by rw [hc2, hmc], by rw [hl2, hml]⟩
          | ffail =>
            exact ⟨hi2, by rw [hc2, hmc], by rw [hl2, hml]⟩
      · rw [if_neg hcomp]
        simp only [if_true]
        rcases hres : pollLoop ae fuel st with ⟨r, st2⟩
        obtain ⟨hi2, hc2, hl2, hfil⟩ := pollConsume_spec ae fuel
          st ⟨h1, h2, h3, h4⟩ hnt r st2 hres
        cases r with
        | filled =>
          obtain ⟨hfi, hfc, hfl⟩ := hfil rfl
          exact ⟨hfi, hfc, hfl⟩
        | fempty =>
          exact ⟨hi2, hc2, hl2⟩
        | ffail =>
          exact ⟨hi2, hc2, hl2⟩
    · rw [if_neg hnt]
      refine ⟨⟨?_, ?_, ?_, ?_⟩, rfl, rfl⟩
      · show st.headI ≤ st.nextI + 1
        omega
      · show st.nextI + 1 ≤ st.tailI
        omega
      · show st.tailI ≤ st.cap
        exact h3
      · show st.arena.length = st.cap
        exact h4

/-- The payload scan preserves the cursor invariant, the capacity and the
arena size. -/
lemma scanToHash_spec (pf : Nat) :
    ∀ (sfuel : Nat) (st : InSt), Inv st →
      Inv (scanToHash pf sfuel st).1 ∧
      (scanToHash pf sfuel st).1.cap = st.cap ∧
      (scanToHash pf sfuel st).1.arena.length = st.arena.length := by
  intro sfuel
  induction sfuel with
  | zero =>
    intro st hinv
    obtain ⟨h1, h2, h3, h4⟩ := hinv
    simp only [scanToHash]
    refine ⟨⟨h1, h2, h3, h4⟩, ?_, ?_⟩ <;> simp
  | succ f ih =>
    intro st hinv
    rcases hrc : readChar pf st false with ⟨r, st1⟩
    obtain ⟨hi1, hc1, hl1⟩ := readChar_spec pf st false hinv
    rw [hrc] at hi1 hc1 hl1
    simp only at hi1 hc1 hl1
    cases r with
    | ok c =>
      simp only [scanToHash, hrc]
      by_cases hc35 : c = 35
      · rw [if_pos hc35]
        exact ⟨hi1, hc1, hl1⟩
      · rw [if_neg hc35]
        obtain ⟨hi2, hc2, hl2⟩ := ih st1 hi1
        exact ⟨hi2, by rw [hc2, hc1], by rw [hl2, hl1]⟩
    | empty =>
      simp only [scanToHash, hrc]
      exact ⟨hi1, hc1, hl1⟩
    | rfail =>
      simp only [scanToHash, hrc]
      exact ⟨hi1, hc1, hl1⟩

/-- `readPktFinish` preserves the cursor invariant, the capacity and the
arena size. -/
lemma readPktFinish_inv (st : InSt) (b : Bool) (hinv : Inv st) :
    Inv (readPktFinish st b).2 ∧ (readPktFinish st b).2.cap = st.cap ∧
      (readPktFinish st b).2.arena.length = st.arena.length := by
  obtain ⟨h1, h2, h3, h4⟩ := hinv
  cases b
  · rw [readPktFinish_false]
    exact ⟨⟨le_refl _, h2, h3, h4⟩, rfl, rfl⟩
  · rw [readPktFinish_true]
    exact ⟨⟨le_refl _, h2, h3, h4⟩, rfl, rfl⟩

/-- `read_pkt` preserves the cursor invariant, the capacity and the arena
size. -/
lemma readPkt_spec (pf sf : Nat) (st : InSt) (ae : Bool) (hinv : Inv st) :
    Inv (readPkt pf sf st ae).2 ∧ (readPkt pf sf st ae).2.cap = st.cap ∧
      (readPkt pf sf st ae).2.arena.length = st.arena.length := by
  obtain ⟨h1, h2, h3, h4⟩ := hinv
  simp only [readPkt]
  by_cases herr : st.error = true
  · rw [if_pos herr]
    exact ⟨⟨h1, h2, h3, h4⟩, rfl, rfl⟩
  · rw [if_neg herr]
    rcases hrc : readChar pf st ae with ⟨r, st1⟩
    obtain ⟨hi1, hc1, hl1⟩ := readChar_spec pf st ae ⟨h1, h2, h3, h4⟩
    rw [hrc] at hi1 hc1 hl1
    simp only at hi1 hc1 hl1
    cases r with
    | rfail =>
      simp only
      exact ⟨hi1, hc1, hl1⟩
    | empty =>
      simp only
      obtain ⟨hif, hcf, hlf⟩ := readPktFinish_inv st1 true hi1
      exact ⟨hif, by rw [hcf, hc1], by rw [hlf, hl1]⟩
    | ok c =>
      simp only
      by_cases hc43 : c = 43
      · rw [if_pos hc43]
        obtain ⟨hif, hcf, hlf⟩ := readPktFinish_inv st1 true hi1
        exact ⟨hif, by rw [hcf, hc1], by rw [hlf, hl1]⟩
      · rw [if_neg hc43]
        by_cases hc36 : c = 36
        · rw [if_pos hc36]
          rcases hsc : scanToHash pf sf st1 with ⟨st2, ok2⟩
          obtain ⟨hi2, hc2, hl2⟩ := scanToHash_spec pf sf st1 hi1
          rw [hsc] at hi2 hc2 hl2
          simp only at hi2 hc2 hl2
          have hcap2 : st2.cap = st.cap := by rw [hc2, hc1]
          have hlen2 : st2.arena.length = st.arena.length := by rw [hl2, hl1]
          cases ok2 with
          | false =>
            simp only
            exact ⟨hi2, hcap2, hlen2⟩
          | true =>
            simp only
            rcases hrc2 : readChar pf st2 false with ⟨r2, st3⟩
            obtain ⟨hi3, hc3, hl3⟩ := readChar_spec pf st2 false hi2
            rw [hrc2] at hi3 hc3 hl3
            simp only at hi3 hc3 hl3
            have hcap3 : st3.cap = st.cap := by rw [hc3, hcap2]
            have hlen3 : st3.arena.length = st.arena.length := by
              rw [hl3, hlen2]
            cases r2 with
            | rfail =>
              simp only
              exact ⟨hi3, hcap3, hlen3⟩
            | empty =>
              simp only
              exact ⟨hi3, hcap3, hlen3⟩
            | ok c1 =>
              simp only
              by_cases hh1 : 0 ≤ hex2int c1
              · rw [if_pos hh1]
                rcases hrc3 : readChar pf st3 false with ⟨r3, st4⟩
                obtain ⟨hi4, hc4, hl4⟩ := readChar_spec pf st3 false hi3
                rw [hrc3] at hi4 hc4 hl4
                simp only at hi4 hc4 hl4
                have hcap4 : st4.cap = st.cap := by rw [hc4, hcap3]
                have hlen4 : st4.arena.length = st.arena.length := by
                  rw [hl4, hlen3]
                cases r3 with
                | rfail =>
                  simp only
                  exact ⟨hi4, hcap4, hlen4⟩
                | empty =>
                  simp only
                  exact ⟨hi4, hcap4, hlen4⟩
                | ok c2 =>
                  simp only
                  by_cases hh2 : 0 ≤ hex2int c2
                  · rw [if_pos hh2]
                    obtain ⟨hif, hcf, hlf⟩ := readPktFinish_inv st4 true hi4
                    exact ⟨hif, by rw [hcf, hcap4], by rw [hlf, hlen4]⟩
                  · rw [if_neg hh2]
                    obtain ⟨hif, hcf, hlf⟩ := readPktFinish_inv st4 false hi4
                    exact ⟨hif, by rw [hcf, hcap4], by rw [hlf, hlen4]⟩
              · rw [if_neg hh1]
                obtain ⟨hif, hcf, hlf⟩ := readPktFinish_inv st3 false hi3
                exact ⟨hif, by rw [hcf, hcap3], by rw [hlf, hlen3]⟩
        · rw [if_neg hc36]
          obtain ⟨hif, hcf, hlf⟩ := readPktFinish_inv st1 false hi1
          exact ⟨hif, by rw [hcf, hc1], by rw [hlf, hl1]⟩

/-! ## Claim theorems -/

/-- C1 counterexample.  In the RUNNING loop the exit packet `$W01#00`
yields process exit status 0, not 1: `fromhex` turns the payload `"01"`
into the raw byte 0x01, which is not an ASCII digit, so `atoi` parses 0. -/
theorem exit_packet_W01_yields_zero :
    runningDispatch (strCodes "$W01#00") = .exited 0 ∧
    runningDispatch (strCodes "$W01#00") ≠ .exited 1 := by
  decide

/-- C1 (corrected).  In the RUNNING loop, `$W00#00` yields exit status 0,
but `$W01#00` also yields 0 (not 1): the exit packet's payload is
hex-decoded to raw bytes and then parsed by `atoi`, so the program's result
code is the decimal number `atoi` reads from the decoded bytes as ASCII
text.  In particular (a sufficient condition, not a characterization —
`atoi` also accepts signs, leading whitespace and trailing non-digits),
whenever the payload hex-encodes a string of ASCII decimal digits `ds`
(e.g. `$W31#00`, whose payload decodes to `"1"`), the session transitions
to EXITED with that decimal value as the result code. -/
theorem exit_packet_decoding (ds : List Nat) (hne : ds ≠ [])
    (hd : ∀ d ∈ ds, 48 ≤ d ∧ d ≤ 57) :
    runningDispatch (strCodes "$W00#00") = .exited 0 ∧
    runningDispatch (strCodes "$W01#00") = .exited 0 ∧
    runningDispatch (strCodes "$W31#00") = .exited 1 ∧
    runningDispatch (exitPacketW ds) = .exited (digitsVal ds) := by
  refine ⟨by decide, by decide, by decide, ?_⟩
  have hshape := exitPacketW_shape ds
  have hlen := exitPacketW_length ds
  have hL : 1 ≤ ds.length := List.length_pos.mpr hne
  have hcmp := strncmpC_W (tohexGo ds ++ [35, 48, 48])
  have hdrop3 : (exitPacketW ds).drop ((exitPacketW ds).length - 3) =
      [35, 48, 48] := by
    rw [hlen, hshape]
    have : 36 :: 87 :: (tohexGo ds ++ [35, 48, 48]) =
        (36 :: 87 :: tohexGo ds) ++ [35, 48, 48] := by simp
    rw [this]
    apply List.drop_left'
    simp only [List.length_cons, length_tohexGo]
    omega
  have hdrop2 : (exitPacketW ds).drop 2 = tohexGo ds ++ [35, 48, 48] := by
    rw [hshape]; rfl
  have hn3 : (exitPacketW ds).length - 3 = 2 * ds.length + 2 := by omega
  have hn5 : ¬((exitPacketW ds).length = 4) := by omega
  have hgt5 : (exitPacketW ds).length > 5 := by omega
  unfold runningDispatch
  rw [if_neg (by intro hc; exact hn5 hc.1)]
  rw [if_neg (by
    intro hc
    have := hc.2.1
    rw [hshape] at this
    rw [hcmp.2.1] at this
    exact absurd this (by decide))]
  rw [if_neg (by
    intro hc
    have := hc.2
    rw [hshape] at this
    rw [hcmp.2.2] at this
    exact absurd this (by decide))]
  rw [if_pos (by
    refine ⟨hgt5, Or.inl ?_, ?_⟩
    · rw [hshape]; exact hcmp.1
    · rw [hdrop3]; rfl)]
  rw [hdrop2, hn3]
  have hd256 : ∀ d ∈ ds, d < 256 := fun d hdm => by
    have := hd d hdm; omega
  rw [fromhexGo_tohexGo_exit ds hd256]
  have hne0 : ∀ b ∈ ds ++ [240], b ≠ 0 := by
    intro b hb
    rcases List.mem_append.mp hb with h1 | h1
    · have := hd b h1; omega
    · simp at h1; omega
  rw [cstr_eq_self _ hne0]
  obtain ⟨d0, ds', rfl⟩ := List.exists_cons_of_ne_nil hne
  have hd0 := hd d0 (by simp)
  have hnotspace : isSpaceC d0 = false := by
    simp only [isSpaceC]
    simp only [decide_eq_false_iff_not]
    push_neg
    omega
  simp only [atoiC, List.cons_append, List.dropWhile_cons, hnotspace,
    Bool.false_eq_true, if_false]
  rw [if_neg (by omega), if_neg (by omega)]
  have := atoiNum_digits (d0 :: ds') hd 0
  simp only [List.cons_append] at this
  rw [this]
  rfl

/-- Witness for C1 at the digit string `"1"` (packet `$W31#00`). -/
theorem exit_packet_decoding_witness :
    runningDispatch (exitPacketW [49]) = .exited (digitsVal [49]) :=
  (exit_packet_decoding [49] (by decide) (by decide)).2.2.2

/-- C2 counterexample.  A session whose next unread byte is the negative
acknowledgement `-` (45): `read_pkt` does not succeed — only `+` is
accepted — it consumes the byte, fails, and sets the error flag. -/
theorem read_pkt_minus_fails :
    (readPkt 0 0 minusState false).1 = .pfail ∧
    (readPkt 0 0 minusState false).2.error = true := by
  decide

/-- C2 (corrected).  For every session state whose next unread byte is `+`
(43), `read_pkt` succeeds with the one-byte packet `"+"`, consuming it (both
`head` and `next` advance past it) and leaving the error flag unset, with no
transport I/O; but a next unread byte `-` (45) is consumed the same way and
treated as an invalid packet: the call fails and sets the error flag. -/
theorem read_pkt_ack_byte (st : InSt) (pf sf : Nat) (ae : Bool)
    (hinv : Inv st) (herr : st.error = false) (hhn : st.headI = st.nextI)
    (hnt : st.nextI < st.tailI) :
    (st.arena.getD st.nextI 0 = 43 →
      (readPkt pf sf st ae).1 = .pok [43] ∧
      (readPkt pf sf st ae).2.error = false ∧
      (readPkt pf sf st ae).2.headI = st.nextI + 1 ∧
      (readPkt pf sf st ae).2.nextI = st.nextI + 1 ∧
      (readPkt pf sf st ae).2.tailI = st.tailI ∧
      (readPkt pf sf st ae).2.arena = st.arena ∧
      (readPkt pf sf st ae).2.polls = st.polls) ∧
    (st.arena.getD st.nextI 0 = 45 →
      (readPkt pf sf st ae).1 = .pfail ∧
      (readPkt pf sf st ae).2.error = true ∧
      (readPkt pf sf st ae).2.headI = st.nextI + 1 ∧
      (readPkt pf sf st ae).2.polls = st.polls) := by
  obtain ⟨h1, h2, h3, h4⟩ := hinv
  have hne : ¬(st.nextI = st.tailI) := by omega
  have hrc : readChar pf st ae =
      (.ok (st.arena.getD st.nextI 0), { st with nextI := st.nextI + 1 }) := by
    unfold readChar
    rw [if_neg (by simp [herr]), if_neg hne]
  have hslice : slice st.arena st.headI (st.nextI + 1) =
      [st.arena.getD st.nextI 0] := by
    rw [hhn]
    exact slice_one st.arena st.nextI (by omega)
  constructor
  · intro hplus
    have hplus' : st.arena[st.nextI]?.getD 0 = 43 := by
      simpa [List.getD] using hplus
    unfold readPkt
    rw [if_neg (by simp [herr])]
    simp only [hrc, hplus, if_pos rfl, readPktFinish_true]
    refine ⟨?_, ?_, ?_, ?_, ?_, ?_, ?_⟩ <;>
      simp [herr, hslice, hplus, hplus']
  · intro hminus
    unfold readPkt
    rw [if_neg (by simp [herr])]
    simp only [hrc, hminus]
    rw [if_neg (by omega), if_neg (by omega), readPktFinish_false]
    refine ⟨rfl, rfl, rfl, rfl⟩

/-- Witness for C2: a buffered `+` is read as the one-byte packet `"+"`. -/
theorem read_pkt_ack_byte_witness :
    (readPkt 0 0 plusState false).1 = .pok [43] :=
  ((read_pkt_ack_byte plusState 0 0 false (by decide) rfl rfl (by decide)).1
    (by decide)).1

/-- C3 counterexample.  Reading the packet `"$OK#00"` and asserting
`expected = "$OK"`: under the claim's comparison (trailing packet bytes
beyond `expected`'s length unchecked) this would succeed, but
`read_pkt_assert` fails with −1 and sets the error flag — the code bounds
the comparison by the packet's length, not `expected`'s. -/
theorem read_pkt_assert_longer_packet_fails :
    (readPkt 10 10 (inNew 16 [Poll.chunk (strCodes "$OK#00")]) false).1 =
      .pok (strCodes "$OK#00") ∧
    (strCodes "$OK#00").take (strCodes "$OK").length = strCodes "$OK" ∧
    (readPktAssert 10 10 (inNew 16 [Poll.chunk (strCodes "$OK#00")])
      (strCodes "$OK")).1 = -1 ∧
    (readPktAssert 10 10 (inNew 16 [Poll.chunk (strCodes "$OK#00")])
      (strCodes "$OK")).2.error = true := by
  decide

/-- C3 (corrected).  For every `expected` and every packet `s` successfully
read (neither containing a NUL byte), `read_pkt_assert` succeeds exactly
when the comparison bounded by the PACKET's length matches: `s` must be a
prefix of `expected` (trailing bytes of `expected` beyond the packet's
length are not checked; a packet longer than `expected` always fails
against `expected`'s NUL terminator).  On any mismatch it returns −1 and
sets the error flag. -/
theorem read_pkt_assert_matches (pf sf : Nat) (st : InSt)
    (expected s : List Nat) (st1 : InSt)
    (hr : readPkt pf sf st false = (.pok s, st1))
    (hs : ∀ b ∈ s, b ≠ 0) (he : ∀ b ∈ expected, b ≠ 0) :
    (s.length ≤ expected.length ∧ s = expected.take s.length →
      readPktAssert pf sf st expected = (0, st1)) ∧
    (¬(s.length ≤ expected.length ∧ s = expected.take s.length) →
      readPktAssert pf sf st expected = (-1, { st1 with error := true })) := by
  have hiff := strncmpC_eq_zero_iff s expected hs he
  constructor
  · intro hm
    simp only [readPktAssert, hr]
    rw [if_pos (hiff.mpr hm)]
  · intro hm
    simp only [readPktAssert, hr]
    rw [if_neg (fun hc => hm (hiff.mp hc))]

/-- Witness for C3: packet `"+"` against `expected = "+X"` succeeds (the
comparison stops at the packet's length). -/
theorem read_pkt_assert_matches_witness :
    readPktAssert 10 10 (inNew 16 [Poll.chunk (strCodes "+")])
      (strCodes "+X") = (0, plusDoneState) :=
  (read_pkt_assert_matches 10 10 (inNew 16 [Poll.chunk (strCodes "+")])
    (strCodes "+X") [43] plusDoneState
    (by decide) (by decide) (by decide)).1 (by decide)

/-- C4 (confirmed).  The session error flag is monotonic: once it is set,
`write_pkt`, `read_char` and `read_pkt` each return immediately with the
state unchanged — no transport I/O (the send log and the pending polls are
untouched) and no buffer mutation — so no protocol operation ever clears
the flag. -/
theorem error_flag_sticky :
    (∀ (st : OutSt) (s : List Nat) (ok : Bool),
      st.error = true → writePkt st s ok = st) ∧
    (∀ (fuel : Nat) (st : InSt) (ae : Bool),
      st.error = true → readChar fuel st ae = (.rfail, st)) ∧
    (∀ (pf sf : Nat) (st : InSt) (ae : Bool),
      st.error = true → readPkt pf sf st ae = (.pfail, st)) := by
  refine ⟨?_, ?_, ?_⟩
  · intro st s ok h
    unfold writePkt
    rw [if_pos h]
  · intro fuel st ae h
    unfold readChar
    rw [if_pos h]
  · intro pf sf st ae h
    unfold readPkt
    rw [if_pos h]

/-- Witness for C4 on an errored session state. -/
theorem error_flag_sticky_witness :
    readPkt 0 0 errState true = (.pfail, errState) :=
  error_flag_sticky.2.2 0 0 errState true rfl

/-- C5 (confirmed).  Receive-buffer discipline: a fresh session satisfies
the cursor invariant `begin ≤ head ≤ next ≤ tail ≤ end` over an arena of
exactly the allocated capacity; `read_char` and `read_pkt` preserve the
invariant and never change the capacity or the arena size (no
reallocation); when free space is below a quarter of capacity the
compaction step shifts the unconsumed span `head..tail` to `begin` with its
contents preserved; and a full buffer with nothing consumable before `head`
sets the error flag and fails the read instead of growing the buffer. -/
theorem receive_buffer_discipline :
    (∀ (bufLen : Nat) (polls : List Poll), Inv (inNew bufLen polls)) ∧
    (∀ (fuel : Nat) (st : InSt) (ae : Bool), Inv st →
      Inv (readChar fuel st ae).2 ∧ (readChar fuel st ae).2.cap = st.cap ∧
      (readChar fuel st ae).2.arena.length = st.arena.length) ∧
    (∀ (pf sf : Nat) (st : InSt) (ae : Bool), Inv st →
      Inv (readPkt pf sf st ae).2 ∧ (readPkt pf sf st ae).2.cap = st.cap ∧
      (readPkt pf sf st ae).2.arena.length = st.arena.length) ∧
    (∀ st : InSt, Inv st → ¬(st.cap - st.tailI = 0 ∧ st.headI = 0) →
      (makeRoom st).2 = true ∧ (makeRoom st).1.headI = 0 ∧
      (makeRoom st).1.nextI = st.tailI - st.headI ∧
      (makeRoom st).1.tailI = st.tailI - st.headI ∧
      (makeRoom st).1.cap = st.cap ∧ (makeRoom st).1.error = st.error ∧
      slice (makeRoom st).1.arena 0 (st.tailI - st.headI) =
        slice st.arena st.headI st.tailI) ∧
    (∀ st : InSt, st.cap - st.tailI = 0 → st.headI = 0 →
      makeRoom st = ({ st with error := true }, false)) := by
  refine ⟨?_, readChar_spec, readPkt_spec, ?_, makeRoom_full⟩
  · intro bufLen polls
    refine ⟨le_refl _, le_refl _, Nat.zero_le _, ?_⟩
    exact List.length_replicate _ _
  · intro st hinv hful
    obtain ⟨hb, hh, hn, ht, hc, he, hp, _⟩ := makeRoom_ok st hful
    exact ⟨hb, hh, hn, ht, hc, he, makeRoom_content st hinv hful⟩

/-- Witness for C5: the invariant holds after reading a packet from a
fresh session. -/
theorem receive_buffer_discipline_witness :
    Inv (readPkt 10 10 (inNew 16 [Poll.chunk (strCodes "$OK#9a")]) false).2 :=
  (receive_buffer_discipline.2.2.1 10 10
    (inNew 16 [Poll.chunk (strCodes "$OK#9a")]) false (by decide)).1

/-- C6 (confirmed).  Hex round-trip: for every byte string `b`,
`fromhex(tohex(b)) == b` — decoding the `2n` hex characters produced by
`tohex` (two uppercase hex characters per byte, high nibble first)
reproduces `b` exactly. -/
theorem hex_roundtrip (bs : List Nat) (h : ∀ b ∈ bs, b < 256) :
    fromhexGo (2 * bs.length) (tohexGo bs) = bs :=
  fromhexGo_tohexGo bs h

/-- Witness for C6 at the byte string `"/a"`. -/
theorem hex_roundtrip_witness :
    fromhexGo (2 * (strCodes "/a").length) (tohexGo (strCodes "/a")) =
      strCodes "/a" :=
  hex_roundtrip (strCodes "/a") (by decide)

/-- C7 (confirmed).  `create_args_packet` for path `"/a"` and no arguments
yields exactly `$A4,0,2F61#00`, and for path `"/a"` with single argument
`"x"` yields `$A4,0,2F61,2,1,78#00` — the argument token `,2,1,78`
appended before the `#00` terminator. -/
theorem create_args_packet_shape :
    create_args_packet (strCodes "/a") [] = strCodes "$A4,0,2F61#00" ∧
    create_args_packet (strCodes "/a") [strCodes "x"] =
      strCodes "$A4,0,2F61,2,1,78#00" := by
  decide

/-- C8 counterexample.  Five consecutive zero-byte reads starting from an
idle counter of 0 cause no pause at all (the counter merely reaches 5):
the pause is not triggered after five idle polls, contrary to the claim of
exactly one ≈1 s pause. -/
theorem five_idle_reads_no_pause :
    spinRun 0 (List.replicate 5 true) = (5, 0) ∧
    (spinRun 0 (List.replicate 5 true)).2 ≠ 1 := by
  decide

/-- C8 (corrected).  `++spin_counter > 5` fires on the sixth consecutive
zero-byte read: six consecutive empty reads trigger exactly one ≈1 s pause
(resetting the counter), five trigger none, the counter resets after any
non-empty read (so five empties after a successful read again pause
nothing), and each further run of six empties sleeps exactly once more. -/
theorem idle_pause_after_six :
    spinRun 0 (List.replicate 6 true) = (0, 1) ∧
    spinRun 0 (List.replicate 5 true) = (5, 0) ∧
    spinStep 5 false = (0, false) ∧
    spinRun 0 (List.replicate 3 true ++ false :: List.replicate 5 true) =
      (5, 0) ∧
    spinRun 0 (List.replicate 6 true ++ List.replicate 6 true) = (0, 2) := by
  decide

/-- C9 (confirmed).  In the local→remote pump, a 4-byte big-endian length
prefix that decodes to zero or to at least the 128 KiB receive-buffer
capacity (131072 = `sizeof(buffer)`) fails the loop having consumed exactly
the four prefix bytes — no payload byte is read for that message. -/
theorem ctod_rejects_bad_length (ins : List Nat) (h4 : 4 ≤ ins.length)
    (hbad : be32toh (ins.getD 0 0) (ins.getD 1 0) (ins.getD 2 0) (ins.getD 3 0) = 0 ∨
      131072 ≤ be32toh (ins.getD 0 0) (ins.getD 1 0) (ins.getD 2 0) (ins.getD 3 0)) :
    ctodIter ins =
      (.badLength (be32toh (ins.getD 0 0) (ins.getD 1 0) (ins.getD 2 0) (ins.getD 3 0)),
        ins.drop 4) := by
  unfold ctodIter
  rw [if_neg (by omega), if_pos (by omega)]

/-- Witness for C9: the prefix `00 02 00 00` decodes to 131072 and is
rejected with only the 4 prefix bytes consumed. -/
theorem ctod_rejects_bad_length_witness :
    ctodIter [0, 2, 0, 0, 9] = (.badLength 131072, [9]) := by
  have h := ctod_rejects_bad_length [0, 2, 0, 0, 9] (by decide) (by decide)
  simpa using h

/-- C10 (confirmed).  The relay's per-direction stop flags live in the one
program-wide `socket_info_t` record: both are 0 exactly at startup
(`relayInit`), the device→client pump's exit sets `stop_ctod` to 1, the
client→device pump's exit sets `stop_dtoc` to 1, no event resets either
flag to 0, and hence after any pump exit the flag stays 1 through every
later event — including every subsequently accepted connection. -/
theorem relay_stop_flags_monotonic :
    relayInit.stop_ctod = 0 ∧ relayInit.stop_dtoc = 0 ∧
    (∀ st, (relayStep st .dtocExit).stop_ctod = 1) ∧
    (∀ st, (relayStep st .ctodExit).stop_dtoc = 1) ∧
    (∀ st e, st.stop_ctod = 1 → (relayStep st e).stop_ctod = 1) ∧
    (∀ st e, st.stop_dtoc = 1 → (relayStep st e).stop_dtoc = 1) ∧
    (∀ l1 l2 : List RelayEvent,
      (relayRun (l1 ++ .ctodExit :: l2)).stop_dtoc = 1) ∧
    (∀ l1 l2 : List RelayEvent,
      (relayRun (l1 ++ .dtocExit :: l2)).stop_ctod = 1) := by
  refine ⟨rfl, rfl, fun st => rfl, fun st => rfl, ?_, ?_, ?_, ?_⟩
  · intro st e h; cases e <;> simp [relayStep, h]
  · intro st e h; cases e <;> simp [relayStep, h]
  · intro l1 l2
    unfold relayRun
    rw [List.foldl_append, List.foldl_cons]
    exact relay_foldl_dtoc _ rfl l2
  · intro l1 l2
    unfold relayRun
    rw [List.foldl_append, List.foldl_cons]
    exact relay_foldl_ctod _ rfl l2

/-- Witness for C10: a set `stop_ctod` survives a later accepted
connection, and a trace with a pump exit ends with the flag set. -/
theorem relay_stop_flags_monotonic_witness :
    (relayStep { stop_ctod := 1, stop_dtoc := 0 }
        RelayEvent.acceptConn).stop_ctod = 1 ∧
    (relayRun [.acceptConn, .ctodExit, .acceptConn]).stop_dtoc = 1 :=
  ⟨relay_stop_flags_monotonic.2.2.2.2.1 _ RelayEvent.acceptConn rfl,
   relay_stop_flags_monotonic.2.2.2.2.2.2.1 [RelayEvent.acceptConn]
     [RelayEvent.acceptConn]⟩

end IosDeviceControl
